import Mathlib

/-!
Shallow embedding of the codec and display-media components of the
leptos-use repository, together with a model (from the spec) of the
reactive storage cell that consumes the codec.

Source files embedded:
  - src/storage/codec_string.rs : the StringCodec implementation of Codec<T>
    for T : FromStr + ToString.
  - src/use_display_media.rs : the create_media helper behind use_display_media.
-/

namespace LeptosUse

/-! ## The FromStr + ToString bound

The Rust impl is generic over any T with FromStr (from_str : &str ->
Result<T, T::Err>) and ToString (to_string : &T -> String).  A value of
StrInterface packages the two methods of one such type T with error type E. -/

structure StrInterface (T : Type) (E : Type) where
  to_string : T → String
  from_str : String → Except E T

/-! ## StringCodec (src/storage/codec_string.rs)

Rust: a unit struct; encode(&self, val: &T) = Ok(val.to_string());
decode(&self, str: String) = T::from_str(&str). -/

structure StringCodec where

def StringCodec.encode {T E : Type} (_self : StringCodec) (inst : StrInterface T E)
    (val : T) : Except E String :=
  .ok (inst.to_string val)

def StringCodec.decode {T E : Type} (_self : StringCodec) (inst : StrInterface T E)
    (str : String) : Except E T :=
  inst.from_str str

/-! ## The String instance of FromStr + ToString

Rust: <String as FromStr>::from_str(s) = Ok(s.to_owned()) (infallible,
Err = Infallible) and String::to_string is the identity. -/

def stringInterface : StrInterface String Empty where
  to_string s := s
  from_str s := .ok s

/-! ## The i32 instance of FromStr + ToString

Rust's integer parser (core::num::from_str_radix at radix 10): an empty
string is Err(Empty); an optional leading sign followed by one or more
ASCII digits, accumulating with checked i32 arithmetic; a bare sign or a
non-digit character is Err(InvalidDigit); exceeding the i32 range is
Err(PosOverflow) / Err(NegOverflow).  Display renders the decimal digits,
preceded by a minus sign when negative. -/

inductive ParseIntError where
  | empty
  | invalidDigit
  | posOverflow
  | negOverflow
deriving DecidableEq

def i32MaxNat : Nat := 2147483647

def i32MinInt : Int := -2147483648

def i32MaxInt : Int := 2147483647

def parsePosDigits : List Char → Nat → Except ParseIntError Nat
  | [], acc => .ok acc
  | c :: cs, acc =>
    if c.isDigit then
      let acc' := acc * 10 + (c.toNat - 48)
      if i32MaxNat < acc' then .error .posOverflow
      else parsePosDigits cs acc'
    else .error .invalidDigit

def parseNegDigits : List Char → Int → Except ParseIntError Int
  | [], acc => .ok acc
  | c :: cs, acc =>
    if c.isDigit then
      let acc' := acc * 10 - Int.ofNat (c.toNat - 48)
      if acc' < i32MinInt then .error .negOverflow
      else parseNegDigits cs acc'
    else .error .invalidDigit

def i32FromStr (s : String) : Except ParseIntError Int :=
  match s.data with
  | [] => .error .empty
  | c :: rest =>
    if c = '+' then
      if rest.isEmpty then .error .invalidDigit
      else (parsePosDigits rest 0).map Int.ofNat
    else if c = '-' then
      if rest.isEmpty then .error .invalidDigit
      else parseNegDigits rest 0
    else (parsePosDigits (c :: rest) 0).map Int.ofNat

def digitChar (d : Nat) : Char := Char.ofNat (48 + d)

def renderNatAux : Nat → Nat → List Char
  | 0, _ => []
  | fuel + 1, n =>
    if n < 10 then [digitChar n]
    else renderNatAux fuel (n / 10) ++ [digitChar (n % 10)]

def renderNat (n : Nat) : List Char := renderNatAux (n + 1) n

def i32ToString (i : Int) : String :=
  if 0 ≤ i then String.mk (renderNat i.toNat)
  else String.mk ('-' :: renderNat (-i).toNat)

def i32Interface : StrInterface Int ParseIntError where
  to_string := i32ToString
  from_str := i32FromStr

/-- Value of a most-significant-first digit string, continuing from an
accumulator; the pure counterpart of the accumulation in parsePosDigits. -/
def digitsVal : List Char → Nat → Nat
  | [], acc => acc
  | c :: cs, acc => digitsVal cs (acc * 10 + (c.toNat - 48))

/-! ## The reactive storage cell (modelled from the spec)

The cell itself (the use_storage family) is not among the provided source
files; only its codec is.  The definitions below follow the spec's
initialization and setter algorithms. -/

inductive StoreError where
  | quotaExceeded
  | unavailable
deriving DecidableEq

/-- Errors reported to the cell's error callback: codec failures or store
failures. -/
inductive CellError (E : Type) where
  | codec : E → CellError E
  | store : StoreError → CellError E
deriving DecidableEq

/-- Modelled from the spec: the initialization algorithm of the Reactive
Storage Cell (the use_storage family, absent from the provided sources).
Inputs: the raw persisted value read via the adapter (none when the key is
absent), the outcome the adapter's set would have on a given encoded
string (none = success), the default value, and whether defaults are
written eagerly.  Returns the resulting reactive value together with the
list of error-callback invocations, in order: if the raw value is absent
or fails to decode, the value falls back to the default (the decode error
is reported) and, when configured, the encoded default is persisted
best-effort (a write failure is reported, not fatal); if the raw value
decodes, it becomes the value. -/
def initCell {T E : Type} (c : StringCodec) (inst : StrInterface T E)
    (raw : Option String) (setOutcome : String → Option StoreError)
    (defaultValue : T) (writeDefault : Bool) : T × List (CellError E) :=
  let fallback : List (CellError E) → T × List (CellError E) := fun errs =>
    if writeDefault then
      match StringCodec.encode c inst defaultValue with
      | .ok s =>
        match setOutcome s with
        | none => (defaultValue, errs)
        | some e => (defaultValue, errs ++ [.store e])
      | .error e => (defaultValue, errs ++ [.codec e])
    else (defaultValue, errs)
  match raw with
  | none => fallback []
  | some s =>
    match StringCodec.decode c inst s with
    | .ok v => (v, [])
    | .error e => fallback [.codec e]

/-- Modelled from the spec: the setter algorithm of the Reactive Storage
Cell (absent from the provided sources).  The reactive value is updated to
the new value first; then the new value is encoded (an encode failure is
reported and persistence is skipped); on encode success the adapter's set
is called (a set failure is reported).  In every branch the returned
reactive value is the caller's new value: no failure rolls it back. -/
def writeCell {T E : Type} (c : StringCodec) (inst : StrInterface T E)
    (newValue : T) (setOutcome : String → Option StoreError) :
    T × List (CellError E) :=
  match StringCodec.encode c inst newValue with
  | .error e => (newValue, [.codec e])
  | .ok s =>
    match setOutcome s with
    | none => (newValue, [])
    | some err => (newValue, [.store err])

/-! ## use_display_media (src/use_display_media.rs)

create_media reads window.navigator (None when the window or its
navigator is unavailable), then navigator.media_devices() (a Result),
then calls getDisplayMedia with or without constraints (a Result holding
a promise), awaits the promise, and wraps the resolved value with
MediaStream::unchecked_from_js.  Every failure is returned as Err. -/

inductive JsValue where
  | str : String → JsValue
  | obj : Nat → JsValue
deriving DecidableEq

def JsValue.from_str (s : String) : JsValue := .str s

def MediaStream : Type := JsValue

def MediaStream.unchecked_from_js (v : JsValue) : MediaStream := v

/-- Model of web_sys::DisplayMediaStreamConstraints (an options object
with audio / video members). -/
structure DisplayMediaStreamConstraints where
  audio : Option Bool
  video : Option Bool

/-- Model of web_sys::MediaDevices: the two getDisplayMedia entry points,
each returning either a promise or a thrown JsValue; a promise is modelled
by its eventual outcome. -/
structure MediaDevices where
  get_display_media_with_constraints :
    DisplayMediaStreamConstraints → Except JsValue (Except JsValue JsValue)
  get_display_media : Except JsValue (Except JsValue JsValue)

/-- Model of web_sys::Navigator as create_media uses it: its
media_devices() accessor. -/
structure Navigator where
  media_devices : Except JsValue MediaDevices

/-- Model of the browser environment reached through use_window():
navigator() is None when the window or its navigator is unavailable. -/
structure WindowEnv where
  navigator : Option Navigator

/-- The ok_or_else / and_then chain producing the MediaDevices handle:
use_window().navigator().ok_or_else(...).and_then(|n| n.media_devices()). -/
def mediaDevicesOf (env : WindowEnv) : Except JsValue MediaDevices :=
  match env.navigator with
  | none => .error (JsValue.from_str "Failed to access window.navigator")
  | some n => n.media_devices

/-- The getDisplayMedia call chosen by the presence of constraints. -/
def displayMediaPromise (media : MediaDevices)
    (opts : Option DisplayMediaStreamConstraints) :
    Except JsValue (Except JsValue JsValue) :=
  match opts with
  | some o => media.get_display_media_with_constraints o
  | none => media.get_display_media

def create_media (env : WindowEnv) (opts : Option DisplayMediaStreamConstraints) :
    Except JsValue MediaStream :=
  match mediaDevicesOf env with
  | .error e => .error e
  | .ok media =>
    match displayMediaPromise media opts with
    | .error e => .error e
    | .ok promise =>
      match promise with
      | .error e => .error e
      | .ok res => .ok (MediaStream.unchecked_from_js res)

end LeptosUse

namespace LeptosUse

/-! ## Theorems -/

/-- C4: encode of the string-primitive codec always succeeds: for every
value v of a type supporting canonical string formatting, StringCodec
encode returns Ok of v rendered to a string and never returns an error. -/
theorem stringCodec_encode_total {T E : Type} (c : StringCodec)
    (inst : StrInterface T E) (v : T) :
    StringCodec.encode c inst v = .ok (inst.to_string v) ∧
      ∀ e : E, StringCodec.encode c inst v ≠ .error e := by
  refine ⟨rfl, fun e h => ?_⟩
  simp [StringCodec.encode] at h

/-- C3: decode surfaces exactly the type's parse errors: for every string
s, StringCodec decode returns Ok(t) iff the type's FromStr parser accepts
s with result t, and returns the type's own parse error exactly when
parsing fails. -/
theorem stringCodec_decode_is_from_str {T E : Type} (c : StringCodec)
    (inst : StrInterface T E) (s : String) :
    (∀ t : T, StringCodec.decode c inst s = .ok t ↔ inst.from_str s = .ok t) ∧
      (∀ e : E, StringCodec.decode c inst s = .error e ↔ inst.from_str s = .error e) :=
  ⟨fun _ => Iff.rfl, fun _ => Iff.rfl⟩

/-- C2: totality of the codec operations: encode returns Ok on every
input; decoding the empty string is well-defined, yielding the parse
error Empty for the i32 instance and the meaningful empty value for the
String instance — never a crash. -/
theorem stringCodec_total_on_empty :
    (∀ (T E : Type) (c : StringCodec) (inst : StrInterface T E) (v : T),
        ∃ s, StringCodec.encode c inst v = .ok s) ∧
      StringCodec.decode StringCodec.mk i32Interface "" = .error ParseIntError.empty ∧
      StringCodec.decode StringCodec.mk stringInterface "" = .ok "" :=
  ⟨fun _ _ _ inst v => ⟨inst.to_string v, rfl⟩, rfl, rfl⟩

/-- C5: codec purity and determinism: StringCodec encode and decode
depend only on their arguments — two calls with equal inputs on any,
possibly distinct, codec instances return equal outputs. -/
theorem stringCodec_pure {T E : Type} (c₁ c₂ : StringCodec)
    (inst : StrInterface T E) :
    (∀ v₁ v₂ : T, v₁ = v₂ →
        StringCodec.encode c₁ inst v₁ = StringCodec.encode c₂ inst v₂) ∧
      (∀ s₁ s₂ : String, s₁ = s₂ →
        StringCodec.decode c₁ inst s₁ = StringCodec.decode c₂ inst s₂) :=
  ⟨fun _ _ h => by cases h; rfl, fun _ _ h => by cases h; rfl⟩

/-- C5 witness: the purity theorem applied at a concrete input. -/
theorem stringCodec_pure_witness :
    StringCodec.encode StringCodec.mk stringInterface "abc"
      = StringCodec.encode StringCodec.mk stringInterface "abc" :=
  (stringCodec_pure StringCodec.mk StringCodec.mk stringInterface).1 "abc" "abc" rfl

/-- C8: specialized to T = String, StringCodec decode is the identity and
encode returns Ok of the same string, so encode after decode also returns
the original string: the reverse round-trip holds for every string, not
only for strings produced by encode. -/
theorem stringCodec_string_identity (c : StringCodec) (s : String) :
    StringCodec.decode c stringInterface s = .ok s ∧
      StringCodec.encode c stringInterface s = .ok s ∧
      ∀ t : String, StringCodec.decode c stringInterface s = .ok t →
        StringCodec.encode c stringInterface t = .ok s := by
  refine ⟨rfl, rfl, fun t h => ?_⟩
  cases h
  rfl

/-- C8 witness: the String specialization applied at a concrete string. -/
theorem stringCodec_string_identity_witness :
    StringCodec.encode StringCodec.mk stringInterface "party time"
      = .ok "party time" :=
  (stringCodec_string_identity StringCodec.mk "party time").2.2 "party time" rfl

/-- C7: persistence failure does not roll back the in-memory value: when
the setter runs and the adapter's set fails (for any store error, in
particular QuotaExceeded), the reactive value remains the caller's new
value and the error callback is invoked once with that store error. -/
theorem writeCell_set_failure_no_rollback {T E : Type}
    (inst : StrInterface T E) (v : T) (err : StoreError) :
    writeCell StringCodec.mk inst v (fun _ => some err)
      = (v, [CellError.store err]) :=
  rfl

/-- C6: corrupt-data resilience: decoding the string "not-a-number" with
the integer string codec fails with a parse error, and initializing a
cell whose persisted slot holds "not-a-number" (with a succeeding
adapter) yields the default value and invokes the error callback exactly
once, for every default value and either setting of the write-default
flag. -/
theorem initCell_corrupt_data (d : Int) (w : Bool) :
    StringCodec.decode StringCodec.mk i32Interface "not-a-number"
        = .error ParseIntError.invalidDigit ∧
      initCell StringCodec.mk i32Interface (some "not-a-number")
          (fun _ => none) d w
        = (d, [CellError.codec ParseIntError.invalidDigit]) := by
  constructor
  · rfl
  · cases w <;> rfl

/-! ### Round-trip of the i32 render / parse pair

These lemmas establish that Rust's integer Display and FromStr, as
embedded above, round-trip on the whole i32 range; the codec round-trip
law (C1) is then instantiated with them. -/

theorem digitChar_toNat : ∀ d, d < 10 → (digitChar d).toNat = 48 + d := by
  decide

theorem digitChar_isDigit : ∀ d, d < 10 → (digitChar d).isDigit = true := by
  decide

theorem isDigit_ne_plus {c : Char} (h : c.isDigit = true) : c ≠ '+' := by
  intro he
  subst he
  exact absurd h (by decide)

theorem isDigit_ne_minus {c : Char} (h : c.isDigit = true) : c ≠ '-' := by
  intro he
  subst he
  exact absurd h (by decide)

theorem digitsVal_append (xs ys : List Char) (acc : Nat) :
    digitsVal (xs ++ ys) acc = digitsVal ys (digitsVal xs acc) := by
  induction xs generalizing acc with
  | nil => rfl
  | cons c cs ih => simp [digitsVal, ih]

theorem le_digitsVal (cs : List Char) (acc : Nat) : acc ≤ digitsVal cs acc := by
  induction cs generalizing acc with
  | nil => exact le_refl acc
  | cons c cs ih =>
    refine le_trans ?_ (ih (acc * 10 + (c.toNat - 48)))
    omega

theorem parsePosDigits_renders (cs : List Char) (acc : Nat)
    (hd : ∀ c ∈ cs, c.isDigit = true) (hb : digitsVal cs acc ≤ i32MaxNat) :
    parsePosDigits cs acc = .ok (digitsVal cs acc) := by
  induction cs generalizing acc with
  | nil => rfl
  | cons c cs ih =>
    have hc : c.isDigit = true := hd c (by simp)
    have hcs : ∀ x ∈ cs, x.isDigit = true := fun x hx => hd x (by simp [hx])
    have hv : digitsVal (c :: cs) acc
        = digitsVal cs (acc * 10 + (c.toNat - 48)) := rfl
    rw [hv] at hb ⊢
    have hacc : acc * 10 + (c.toNat - 48)
        ≤ digitsVal cs (acc * 10 + (c.toNat - 48)) :=
      le_digitsVal cs (acc * 10 + (c.toNat - 48))
    have hguard : ¬ i32MaxNat < acc * 10 + (c.toNat - 48) :=
      Nat.not_lt.mpr (le_trans hacc hb)
    simp only [parsePosDigits, hc, if_true, if_neg hguard]
    exact ih (acc * 10 + (c.toNat - 48)) hcs hb

theorem renderNatAux_digits (fuel : Nat) : ∀ n, n < fuel →
    ∀ c ∈ renderNatAux fuel n, c.isDigit = true := by
  induction fuel with
  | zero => intro n h; omega
  | succ fuel ih =>
    intro n h c hc
    by_cases h10 : n < 10
    · simp only [renderNatAux, if_pos h10, List.mem_singleton] at hc
      subst hc
      exact digitChar_isDigit n h10
    · simp only [renderNatAux, if_neg h10, List.mem_append,
        List.mem_singleton] at hc
      rcases hc with hc | hc
      · exact ih (n / 10) (by omega) c hc
      · subst hc
        exact digitChar_isDigit (n % 10) (Nat.mod_lt n (by norm_num))

theorem digitsVal_renderNatAux (fuel : Nat) : ∀ n, n < fuel → ∀ acc,
    digitsVal (renderNatAux fuel n) acc
      = acc * 10 ^ (renderNatAux fuel n).length + n := by
  induction fuel with
  | zero => intro n h; omega
  | succ fuel ih =>
    intro n h acc
    by_cases h10 : n < 10
    · simp only [renderNatAux, if_pos h10, digitsVal, List.length_singleton,
        pow_one, digitChar_toNat n h10]
      omega
    · have hlt : n / 10 < fuel := by omega
      simp only [renderNatAux, if_neg h10, digitsVal_append, digitsVal,
        List.length_append, List.length_singleton,
        digitChar_toNat (n % 10) (Nat.mod_lt n (by norm_num)),
        ih (n / 10) hlt acc]
      have hdm : n / 10 * 10 + n % 10 = n := by omega
      calc (acc * 10 ^ (renderNatAux fuel (n / 10)).length + n / 10) * 10
            + (48 + n % 10 - 48)
          = acc * 10 ^ ((renderNatAux fuel (n / 10)).length + 1)
            + (n / 10 * 10 + n % 10) := by ring_nf; omega
        _ = acc * 10 ^ ((renderNatAux fuel (n / 10)).length + 1) + n := by
            rw [hdm]

theorem renderNatAux_ne_nil (fuel n : Nat) (h : n < fuel) :
    renderNatAux fuel n ≠ [] := by
  cases fuel with
  | zero => omega
  | succ fuel => by_cases h10 : n < 10 <;> simp [renderNatAux, h10]

theorem renderNat_digits (n : Nat) : ∀ c ∈ renderNat n, c.isDigit = true :=
  renderNatAux_digits (n + 1) n (Nat.lt_succ_self n)

theorem digitsVal_renderNat (n : Nat) : digitsVal (renderNat n) 0 = n := by
  have h := digitsVal_renderNatAux (n + 1) n (Nat.lt_succ_self n) 0
  simpa [renderNat] using h

theorem renderNat_ne_nil (n : Nat) : renderNat n ≠ [] :=
  renderNatAux_ne_nil (n + 1) n (Nat.lt_succ_self n)

theorem parseNegDigits_renders (cs : List Char) (m : Nat)
    (hd : ∀ c ∈ cs, c.isDigit = true) (hb : digitsVal cs m ≤ 2147483648) :
    parseNegDigits cs (-(m : Int)) = .ok (-(digitsVal cs m : Int)) := by
  induction cs generalizing m with
  | nil => simp [parseNegDigits, digitsVal]
  | cons c cs ih =>
    have hc : c.isDigit = true := hd c (by simp)
    have hcs : ∀ x ∈ cs, x.isDigit = true := fun x hx => hd x (by simp [hx])
    have hv : digitsVal (c :: cs) m
        = digitsVal cs (m * 10 + (c.toNat - 48)) := rfl
    rw [hv] at hb ⊢
    have hacc : m * 10 + (c.toNat - 48)
        ≤ digitsVal cs (m * 10 + (c.toNat - 48)) :=
      le_digitsVal cs (m * 10 + (c.toNat - 48))
    have hle : ((m * 10 + (c.toNat - 48) : Nat) : Int) ≤ 2147483648 := by
      exact_mod_cast le_trans hacc hb
    have hrw : (-(m : Int)) * 10 - Int.ofNat (c.toNat - 48)
        = -((m * 10 + (c.toNat - 48) : Nat) : Int) := by
      simp only [Int.ofNat_eq_natCast]
      push_cast
      ring
    have hguard : ¬ (-((m * 10 + (c.toNat - 48) : Nat) : Int) < i32MinInt) := by
      simp only [i32MinInt]
      omega
    simp only [parseNegDigits, hc, if_true, hrw, if_neg hguard]
    exact ih (m * 10 + (c.toNat - 48)) hcs hb

theorem i32FromStr_cons (c : Char) (rest : List Char) :
    i32FromStr (String.mk (c :: rest))
      = if c = '+' then
          (if rest.isEmpty then .error .invalidDigit
           else (parsePosDigits rest 0).map Int.ofNat)
        else if c = '-' then
          (if rest.isEmpty then .error .invalidDigit
           else parseNegDigits rest 0)
        else (parsePosDigits (c :: rest) 0).map Int.ofNat := rfl

/-- The embedded i32 Display / FromStr pair round-trips on every value in
the i32 range. -/
theorem i32FromStr_i32ToString (i : Int) (h1 : i32MinInt ≤ i)
    (h2 : i ≤ i32MaxInt) : i32FromStr (i32ToString i) = .ok i := by
  by_cases h0 : 0 ≤ i
  · rw [i32ToString, if_pos h0]
    obtain ⟨c, cs, hrender⟩ :=
      List.exists_cons_of_ne_nil (renderNat_ne_nil i.toNat)
    have hc : c.isDigit = true := by
      refine renderNat_digits i.toNat c ?_
      rw [hrender]
      simp
    rw [hrender, i32FromStr_cons, if_neg (isDigit_ne_plus hc),
      if_neg (isDigit_ne_minus hc), ← hrender]
    have hmax : i.toNat ≤ i32MaxNat := by
      simp only [i32MaxInt] at h2
      simp only [i32MaxNat]
      omega
    rw [parsePosDigits_renders (renderNat i.toNat) 0 (renderNat_digits i.toNat)
      (by rw [digitsVal_renderNat]; exact hmax), digitsVal_renderNat]
    simp only [Except.map]
    congr 1
    simp only [Int.ofNat_eq_natCast]
    exact Int.toNat_of_nonneg h0
  · rw [i32ToString, if_neg h0]
    obtain ⟨c, cs, hrender⟩ :=
      List.exists_cons_of_ne_nil (renderNat_ne_nil (-i).toNat)
    rw [i32FromStr_cons, if_neg (by decide), if_pos rfl]
    rw [hrender]
    simp only [List.isEmpty_cons, if_neg Bool.false_ne_true]
    rw [← hrender]
    have hmag : digitsVal (renderNat (-i).toNat) 0 ≤ 2147483648 := by
      rw [digitsVal_renderNat]
      simp only [i32MinInt] at h1
      omega
    have h := parseNegDigits_renders (renderNat (-i).toNat) 0
      (renderNat_digits (-i).toNat) hmag
    rw [digitsVal_renderNat] at h
    simp only [Nat.cast_zero, neg_zero] at h
    rw [h]
    congr 1
    omega

/-- C1: round-trip law for the string-primitive codec: for every type T
whose canonical string parsing/formatting round-trips on its valid values
(parsing a rendered valid value yields the value back), and every valid
value v, decoding what StringCodec encode produced for v yields Ok(v). -/
theorem stringCodec_roundtrip {T E : Type} (c : StringCodec)
    (inst : StrInterface T E) (valid : T → Prop)
    (lawful : ∀ v : T, valid v → inst.from_str (inst.to_string v) = .ok v)
    (v : T) (hv : valid v) (s : String)
    (henc : StringCodec.encode c inst v = .ok s) :
    StringCodec.decode c inst s = .ok v := by
  have hs : s = inst.to_string v := by
    have h : Except.ok (ε := E) (inst.to_string v) = .ok s := henc
    cases h
    rfl
  rw [StringCodec.decode, hs]
  exact lawful v hv

/-- C1 witness: the round-trip law applied to the i32 instance, whose
lawfulness on the i32 range is the round-trip theorem above, at the
concrete value -42. -/
theorem stringCodec_roundtrip_witness :
    StringCodec.decode StringCodec.mk i32Interface "-42" = .ok (-42) :=
  stringCodec_roundtrip StringCodec.mk i32Interface
    (fun i => i32MinInt ≤ i ∧ i ≤ i32MaxInt)
    (fun v hv => i32FromStr_i32ToString v hv.1 hv.2)
    (-42) (by constructor <;> decide) "-42" rfl

/-- C9: the display-media fetch never panics on a missing platform API:
create_media always returns a Result value; when the window's navigator
is unavailable it returns Err with the message "Failed to access
window.navigator"; when the media-devices interface is unavailable, or
the getDisplayMedia call or the awaited promise fails, that failure is
returned as Err. -/
theorem create_media_error_handling (env : WindowEnv)
    (opts : Option DisplayMediaStreamConstraints) :
    (env.navigator = none →
        create_media env opts
          = .error (JsValue.from_str "Failed to access window.navigator")) ∧
      (∀ (n : Navigator) (e : JsValue), env.navigator = some n →
        n.media_devices = .error e → create_media env opts = .error e) ∧
      (∀ (n : Navigator) (md : MediaDevices) (p : Except JsValue JsValue)
          (e : JsValue), env.navigator = some n → n.media_devices = .ok md →
        displayMediaPromise md opts = .ok p →
        p = .error e → create_media env opts = .error e) := by
  refine ⟨fun h => ?_, fun n e hn hm => ?_, fun n md p e hn hm hp hpe => ?_⟩
  · simp [create_media, mediaDevicesOf, h]
  · simp [create_media, mediaDevicesOf, hn, hm]
  · subst hpe
    simp [create_media, mediaDevicesOf, hn, hm, hp]

/-- C9 witness: the error-handling theorem applied to an environment with
no navigator. -/
theorem create_media_error_handling_witness :
    create_media ⟨none⟩ none
      = .error (JsValue.from_str "Failed to access window.navigator") :=
  (create_media_error_handling ⟨none⟩ none).1 rfl

end LeptosUse
